import Mathlib

/-!
Shallow embedding of the block-integrity core of the blockchain repository
(src/src/primitives/block.rs): BlockHeader canonical hashing and validation,
Block construction, reconstruction on load (custom deserialization), and
transaction inclusion checking.

External collaborators (the concrete hash algorithm, the inclusion-proof
merkle tree, the difficulty oracle and the proof-of-work predicate) are not
part of the given source; they are either abstract parameters (the digest
function, the difficulty oracle, the proof-of-work predicate) or modelled
from the spec (the merkle tree), as marked on each definition.

Machine integers: the u64 fields (nonce, timestamp, depth) are modelled as
Nat; no claim involves overflow. A 32-byte array is modelled as a list of
byte values.
-/

namespace BlockCore

/-- A digest / 32-byte array value ([u8; 32] in the source), modelled as a
list of byte values. -/
abbrev Hash32 := List Nat

/-- Little-endian byte encoding of a u64 value, mirroring u64::to_le_bytes:
eight bytes, least significant first. -/
def u64ToLeBytes (n : Nat) : List Nat :=
  (List.range 8).map fun i => n / 256 ^ i % 256

/-- A transaction. The core treats transactions as opaque beyond their
canonical 32-byte form (the Into trait to [u8; 32]); we identify a
transaction with that canonical form, so the conversion is the identity. -/
abbrev Transaction := Hash32

/-- Modelled from the spec: the canonical 32-byte hash form of a transaction
(the Into conversion used by get_proof_for_transaction and
validate_transaction; the Transaction type is not under src/). With
transactions identified with their canonical form, this is the identity. -/
def txBytes (t : Transaction) : Hash32 := t

/-- A node of the inclusion-proof tree, carrying its hash (mirrors the node
access merkle_tree.nodes.get(i).unwrap().hash in Block::new). -/
structure MerkleNode where
  hash : Hash32
deriving DecidableEq, Inhabited

/-- The inclusion-proof tree (MerkleTree in the source, from the external
pillar crypto collaborator): a node store, an optional root index, and the
ordered leaf hashes it was built over. -/
structure MerkleTree where
  nodes : List MerkleNode
  root : Option Nat
  leaves : List Hash32
deriving DecidableEq, Inhabited

/-- Modelled from the spec: the root digest of the inclusion-proof tree
built over the given ordered leaves (the tree algorithm itself is an
external collaborator, not under src/). It is a digest of the leaves in
order, well defined for zero leaves (the empty-tree root). -/
def merkleRootHash (digestFn : List Nat → Hash32) (leaves : List Hash32) : Hash32 :=
  digestFn leaves.flatten

/-- Modelled from the spec: generate_tree (external collaborator, not under
src/) builds the inclusion-proof tree over the items in their given order.
Per the spec it always succeeds, including over zero items, with a well
defined root; the leaf of an item is its canonical 32-byte form. -/
def generate_tree (digestFn : List Nat → Hash32) (items : List Transaction) :
    Option MerkleTree :=
  let leaves := items.map txBytes
  some { nodes := leaves.map MerkleNode.mk ++ [⟨merkleRootHash digestFn leaves⟩],
         root := some leaves.length,
         leaves := leaves }

/-- An inclusion proof (MerkleProof in the source). In this model a proof
carries the ordered leaves of the tree it was issued from. -/
structure MerkleProof where
  leaves : List Hash32
deriving DecidableEq, Inhabited

/-- Modelled from the spec: generate_proof_of_inclusion (external
collaborator, not under src/) returns a proof exactly when the given leaf
hash is a leaf of the tree, and the empty result otherwise. -/
def generate_proof_of_inclusion (tree : MerkleTree) (leafHash : Hash32) :
    Option MerkleProof :=
  if leafHash ∈ tree.leaves then some ⟨tree.leaves⟩ else none

/-- Modelled from the spec: verify_proof_of_inclusion (external
collaborator, not under src/) independently checks that the leaf hash is
covered by the proof and that the proof reproduces the claimed root. -/
def verify_proof_of_inclusion (digestFn : List Nat → Hash32) (leafHash : Hash32)
    (proof : MerkleProof) (claimedRoot : Hash32) : Bool :=
  decide (leafHash ∈ proof.leaves) &&
    decide (merkleRootHash digestFn proof.leaves = claimedRoot)

/-- BlockHeader (src/src/primitives/block.rs): previous-block link, tree
root, nonce, timestamp, optional miner identity, depth. -/
structure BlockHeader where
  previous_hash : Hash32
  merkle_root : Hash32
  nonce : Nat
  timestamp : Nat
  miner_address : Option Hash32
  depth : Nat
deriving DecidableEq, Inhabited

/-- BlockHeader::new: plain record construction from the six fields. -/
def BlockHeader.new (previous_hash merkle_root : Hash32) (nonce timestamp : Nat)
    (miner_address : Option Hash32) (depth : Nat) : BlockHeader :=
  { previous_hash, merkle_root, nonce, timestamp, miner_address, depth }

/-- The error of BlockHeader hashing: the miner address is not set
(the std::io::Error with the message that the miner address is not set). -/
inductive HashError where
  | MissingMiner
deriving DecidableEq, Inhabited

/-- Hashable::hash for BlockHeader: fails when miner_address is absent,
otherwise absorbs previous_hash, merkle_root, the unwrapped miner_address,
nonce.to_le_bytes, timestamp.to_le_bytes, depth.to_le_bytes, in that order,
and finalizes the engine. The stateful absorb-then-finalize engine is
modelled by applying the digest function to the absorbed byte sequence. -/
def BlockHeader.hash (digestFn : List Nat → Hash32) (h : BlockHeader) :
    Except HashError Hash32 :=
  match h.miner_address with
  | none => .error .MissingMiner
  | some m =>
      .ok (digestFn (h.previous_hash ++ h.merkle_root ++ m ++
        u64ToLeBytes h.nonce ++ u64ToLeBytes h.timestamp ++ u64ToLeBytes h.depth))

/-- The canonical byte sequence of section 4.1 of the spec, written from the
the words of the spec for comparison with the source hashing function: each
field in its fixed-width little-endian or raw-byte form, in this exact
order: previous_hash, merkle_root, miner_address (unwrapped), nonce,
timestamp, depth. -/
def canonicalByteSequence (h : BlockHeader) (miner : Hash32) : List Nat :=
  h.previous_hash ++ h.merkle_root ++ miner ++
    u64ToLeBytes h.nonce ++ u64ToLeBytes h.timestamp ++ u64ToLeBytes h.depth

/-- The source unwrap of a hashing result (Result::unwrap); the panic branch
is modelled by the default value. In validate it is reached only after the
miner check, where hashing cannot fail. -/
def exceptUnwrap (r : Except HashError Hash32) : Hash32 :=
  match r with
  | .ok d => d
  | .error _ => default

/-- BlockHeader::validate: checks, in order and short-circuiting, that the
miner is declared, that the claimed expected hash equals the header hash,
that the proof-of-work predicate accepts the header hash against the target
the difficulty oracle derives from depth, and that the timestamp is at most
one hour (60 * 60 seconds) ahead of the current wall-clock time. The oracle
(get_difficulty_from_depth), the predicate (is_valid_hash) and the current
time (SystemTime::now) are parameters. -/
def BlockHeader.validate (digestFn : List Nat → Hash32)
    (get_difficulty_from_depth : Nat → Nat)
    (is_valid_hash : Nat → Hash32 → Bool)
    (current_time : Nat)
    (h : BlockHeader) (expected_hash : Hash32) : Bool :=
  if h.miner_address.isNone then false
  else if expected_hash ≠ exceptUnwrap (h.hash digestFn) then false
  else if !(is_valid_hash (get_difficulty_from_depth h.depth)
              (exceptUnwrap (h.hash digestFn))) then false
  else if h.timestamp > current_time + 60 * 60 then false
  else true

/-- Block (src/src/primitives/block.rs): header, ordered transactions,
optional finalized hash, and the derived (serde-skipped) merkle tree. -/
structure Block where
  header : BlockHeader
  transactions : List Transaction
  hash : Option Hash32
  merkle_tree : MerkleTree
deriving DecidableEq, Inhabited

/-- The root-node hash access of Block::new:
merkle_tree.nodes.get(merkle_tree.root.unwrap()).unwrap().hash, with the
panic branches of the two unwraps modelled by the default value. -/
def MerkleTree.rootNodeHash (t : MerkleTree) : Hash32 :=
  match t.root with
  | some i => (t.nodes.getD i default).hash
  | none => default

/-- Block::new: builds the tree over the transactions (unwrapping the
build result), builds the header from the six scalar inputs plus the root
node hash of the tree, hashes the header, and stores Some digest when
hashing succeeded and None when it failed. -/
def Block.new (digestFn : List Nat → Hash32)
    (previous_hash : Hash32) (nonce timestamp : Nat)
    (transactions : List Transaction) (miner_address : Option Hash32)
    (depth : Nat) : Block :=
  let merkle_tree := (generate_tree digestFn transactions).getD default
  let header := BlockHeader.new previous_hash merkle_tree.rootNodeHash
    nonce timestamp miner_address depth
  let hash := header.hash digestFn
  { header := header,
    transactions := transactions,
    hash := match hash with
            | .ok d => some d
            | .error _ => none,
    merkle_tree := merkle_tree }

/-- The persisted / wire form of a Block: header, transactions and the
optional hash (the helper struct of the custom Deserialize, whose name in
the source marks it as a partial block; the derived tree is serde-skipped). -/
structure PersistedBlock where
  header : BlockHeader
  transactions : List Transaction
  hash : Option Hash32
deriving DecidableEq, Inhabited

/-- The custom Deserialize for Block: reads the persisted form and then
calls Block::new with the header scalar fields and the transactions. Note
that neither the persisted hash nor the persisted header.merkle_root is
passed on: both are recomputed by Block::new. -/
def Block.deserialize (digestFn : List Nat → Hash32) (p : PersistedBlock) : Block :=
  Block.new digestFn p.header.previous_hash p.header.nonce p.header.timestamp
    p.transactions p.header.miner_address p.header.depth

/-- The persisted form of a Block: header, transactions, hash verbatim
(the serde Serialize of Block, with merkle_tree skipped). -/
def Block.persist (b : Block) : PersistedBlock :=
  { header := b.header, transactions := b.transactions, hash := b.hash }

/-- Block::get_proof_for_transaction: converts the transaction to its
canonical 32-byte form and asks the tree for an inclusion proof. -/
def Block.get_proof_for_transaction (b : Block) (t : Transaction) : Option MerkleProof :=
  generate_proof_of_inclusion b.merkle_tree (txBytes t)

/-- Block::validate_transaction: requests a proof and, when one exists,
verifies it against header.merkle_root; returns false when no proof
exists. -/
def Block.validate_transaction (digestFn : List Nat → Hash32)
    (b : Block) (t : Transaction) : Bool :=
  match b.get_proof_for_transaction t with
  | some proof =>
      verify_proof_of_inclusion digestFn (txBytes t) proof b.header.merkle_root
  | none => false

/-- The error of converting an unmined Block to its 32-byte hash. -/
inductive ConvError where
  | NotFinalized
deriving DecidableEq, Inhabited

/-- The Into conversion of Block to [u8; 32]: self.hash.unwrap(). The
source unwraps unguarded; the panic branch on an absent hash is embedded
as the error value. -/
def Block.intoHash (b : Block) : Except ConvError Hash32 :=
  match b.hash with
  | some d => .ok d
  | none => .error .NotFinalized

/-- A concrete digest function for concrete evaluations: two bytes, the
length and the byte sum of the input, both reduced mod 256. -/
def digestFnEx (bs : List Nat) : Hash32 :=
  [bs.length % 256, bs.sum % 256]

/-- A concrete difficulty oracle for concrete evaluations. -/
def diffEx (depth : Nat) : Nat := depth + 1

/-- A concrete proof-of-work predicate that accepts everything, for
concrete evaluations. -/
def powEx (_target : Nat) (_digest : Hash32) : Bool := true

/-- A concrete 32-byte zero array. -/
def zeros32 : Hash32 := List.replicate 32 0

/-- A concrete miner address. -/
def minerEx : Hash32 := List.replicate 32 7

/-- Concrete transactions for concrete evaluations. -/
def txA : Transaction := [1]

/-- A second concrete transaction. -/
def txB : Transaction := [2]

/-- A third concrete transaction, not part of the example block. -/
def txC : Transaction := [3]

/-- A concrete header with a miner address set. -/
def hdrEx : BlockHeader :=
  BlockHeader.new zeros32 zeros32 0 100 (some minerEx) 0

/-- A concrete header without a miner address. -/
def hdrNoMiner : BlockHeader :=
  BlockHeader.new zeros32 zeros32 0 100 none 0

/-- The digest of the concrete header under the concrete digest function. -/
def expEx : Hash32 := digestFnEx (canonicalByteSequence hdrEx minerEx)

/-- A concrete block built over two transactions with a miner set. -/
def blockEx : Block :=
  Block.new digestFnEx zeros32 0 100 [txA, txB] (some minerEx) 0

/-- A concrete unmined block (no miner address, hence no hash). -/
def blockNoMiner : Block :=
  Block.new digestFnEx zeros32 0 100 [txA, txB] none 0

/-- A concrete persisted form whose transactions reproduce the claimed
merkle root. -/
def pGood : PersistedBlock :=
  { header := BlockHeader.new zeros32
      (merkleRootHash digestFnEx ([txA, txB].map txBytes)) 0 100 (some minerEx) 0,
    transactions := [txA, txB],
    hash := none }

/-- A concrete persisted form whose claimed merkle root does not match its
transactions. -/
def pBad : PersistedBlock :=
  { header := BlockHeader.new zeros32 [9, 9, 9] 0 100 (some minerEx) 0,
    transactions := [txA, txB],
    hash := none }

/-- A concrete persisted form with a miner address but no persisted hash. -/
def pNoHash : PersistedBlock :=
  { header := BlockHeader.new zeros32 zeros32 0 100 (some minerEx) 0,
    transactions := [],
    hash := none }

/-! Helper lemmas shared by several claims. -/

theorem getD_append_singleton {α : Type} (l : List α) (a d : α) (n : Nat)
    (hn : n = l.length) : (l ++ [a]).getD n d = a := by
  subst hn
  induction l with
  | nil => rfl
  | cons x xs ih => simp

theorem rootNodeHash_generate (digestFn : List Nat → Hash32) (txs : List Transaction) :
    ((generate_tree digestFn txs).getD default).rootNodeHash
      = merkleRootHash digestFn (txs.map txBytes) := by
  simp only [generate_tree, Option.getD_some, MerkleTree.rootNodeHash]
  exact congrArg MerkleNode.hash (getD_append_singleton _ _ _ _ (by simp))

theorem block_new_header (digestFn : List Nat → Hash32) (ph : Hash32) (n ts : Nat)
    (txs : List Transaction) (ma : Option Hash32) (d : Nat) :
    (Block.new digestFn ph n ts txs ma d).header =
      BlockHeader.new ph (merkleRootHash digestFn (txs.map txBytes)) n ts ma d := by
  simp only [Block.new, BlockHeader.new]
  rw [rootNodeHash_generate]

theorem block_new_hash (digestFn : List Nat → Hash32) (ph : Hash32) (n ts : Nat)
    (txs : List Transaction) (ma : Option Hash32) (d : Nat) :
    (Block.new digestFn ph n ts txs ma d).hash =
      ((Block.new digestFn ph n ts txs ma d).header.hash digestFn).toOption := by
  cases ma <;> rfl

/-- Claim C1: BlockHeader::validate returns true exactly when the miner
address is present, the header hash equals the expected hash, the
proof-of-work predicate accepts the header hash against the target derived
from depth, and the timestamp is at most 3600 seconds ahead of the current
wall-clock time (so current time + 3601 fails and current time + 3599
passes); the checks short-circuit in that order. -/
theorem header_validate_iff (digestFn : List Nat → Hash32) (diffOf : Nat → Nat)
    (powOk : Nat → Hash32 → Bool) (now : Nat) (h : BlockHeader)
    (expected_hash : Hash32) :
    BlockHeader.validate digestFn diffOf powOk now h expected_hash = true ↔
      (h.miner_address.isSome = true ∧
       h.hash digestFn = Except.ok expected_hash ∧
       powOk (diffOf h.depth) expected_hash = true ∧
       h.timestamp ≤ now + 3600) := by
  cases hm : h.miner_address with
  | none => simp [BlockHeader.validate, BlockHeader.hash, hm]
  | some m =>
      simp only [BlockHeader.validate, BlockHeader.hash, hm, Option.isNone_some,
        Bool.false_eq_true, if_false, exceptUnwrap, Option.isSome_some, true_and,
        Except.ok.injEq]
      by_cases hE : expected_hash = digestFn (h.previous_hash ++ h.merkle_root ++ m ++
          u64ToLeBytes h.nonce ++ u64ToLeBytes h.timestamp ++ u64ToLeBytes h.depth)
      · rw [← hE, if_neg (fun hcon => hcon rfl)]
        by_cases hP : powOk (diffOf h.depth) expected_hash = true
        · rw [if_neg (by simp [hP])]
          by_cases hts : h.timestamp ≤ now + 3600
          · rw [if_neg (by omega)]
            simp [hP, hts]
          · rw [if_pos (by omega)]
            simp [hts]
        · rw [if_pos (by simp [Bool.not_eq_true] at hP ⊢; exact hP)]
          simp [hP]
      · rw [if_pos hE]
        simp only [Bool.false_eq_true, false_iff]
        intro hc
        exact hE hc.1.symm

/-- Claim C2: BlockHeader hashing fails with MissingMiner exactly when the
miner address is absent; when it is present the result is the digest of the
canonical byte sequence previous_hash, merkle_root, miner_address
(unwrapped), nonce, timestamp, depth, each in fixed-width little-endian or
raw-byte form, in that order. -/
theorem header_hash_spec (digestFn : List Nat → Hash32) (h : BlockHeader) :
    (h.hash digestFn = Except.error HashError.MissingMiner ↔
      h.miner_address = none) ∧
    (∀ m : Hash32, h.miner_address = some m →
      h.hash digestFn = Except.ok (digestFn (canonicalByteSequence h m))) := by
  constructor
  · cases hm : h.miner_address <;> simp [BlockHeader.hash, hm]
  · intro m hm
    simp [BlockHeader.hash, hm, canonicalByteSequence]

/-- Witness for claim C2 at concrete headers: the header without a miner
fails with MissingMiner, and the header with a miner hashes to the digest of
its canonical byte sequence. -/
theorem header_hash_spec_witness :
    hdrNoMiner.hash digestFnEx = Except.error HashError.MissingMiner ∧
    hdrEx.hash digestFnEx = Except.ok (digestFnEx (canonicalByteSequence hdrEx minerEx)) :=
  ⟨(header_hash_spec digestFnEx hdrNoMiner).1.mpr rfl,
   (header_hash_spec digestFnEx hdrEx).2 minerEx rfl⟩

/-- Claim C3: for every Block produced by Block::new and for every Block
reconstructed from a persisted form by the custom deserialization (which
funnels through Block::new), the root hash of merkle_tree equals
header.merkle_root. -/
theorem merkle_root_invariant (digestFn : List Nat → Hash32) (ph : Hash32)
    (n ts : Nat) (txs : List Transaction) (ma : Option Hash32) (d : Nat) :
    (Block.new digestFn ph n ts txs ma d).merkle_tree.rootNodeHash
      = (Block.new digestFn ph n ts txs ma d).header.merkle_root ∧
    ∀ p : PersistedBlock,
      (Block.deserialize digestFn p).merkle_tree.rootNodeHash
        = (Block.deserialize digestFn p).header.merkle_root :=
  ⟨rfl, fun _ => rfl⟩

/-- Witness for claim C1 at concrete inputs: the concrete header with a
miner address, the correct expected hash, the accept-all proof-of-work
predicate and a current time far ahead of the timestamp validates. -/
theorem header_validate_iff_witness :
    BlockHeader.validate digestFnEx diffEx powEx 1000 hdrEx expEx = true :=
  (header_validate_iff digestFnEx diffEx powEx 1000 hdrEx expEx).mpr
    ⟨rfl, rfl, rfl, by decide⟩

/-- Counterexample for claim C4: a persisted form whose transactions do not
reproduce the claimed merkle root is neither rejected nor flagged by
deserialization: it yields exactly the same Block as the honest persisted
form with the matching root, the claimed root being silently overwritten by
the re-derived one. -/
theorem deserialize_no_reject_counterexample :
    merkleRootHash digestFnEx ([txA, txB].map txBytes) ≠ pBad.header.merkle_root ∧
    Block.deserialize digestFnEx pBad = Block.deserialize digestFnEx pGood ∧
    (Block.deserialize digestFnEx pBad).header.merkle_root
      ≠ pBad.header.merkle_root := by
  decide

/-- Claim C4 (amended): deserialization re-derives header.merkle_root from
the transactions instead of trusting the wire value — the wire merkle_root
has no effect at all on the resulting Block — but a persisted form whose
transactions do not reproduce the claimed root is silently accepted with
the recomputed root rather than rejected or flagged. -/
theorem deserialize_rederives_root (digestFn : List Nat → Hash32)
    (p : PersistedBlock) (r : Hash32) :
    Block.deserialize digestFn { p with header := { p.header with merkle_root := r } }
      = Block.deserialize digestFn p ∧
    (Block.deserialize digestFn p).header.merkle_root
      = merkleRootHash digestFn (p.transactions.map txBytes) := by
  constructor
  · rfl
  · rw [Block.deserialize, block_new_header]
    rfl

/-- Claim C5: constructing a Block from the six inputs and separately
reconstructing a Block from the persisted form of the first yield Blocks
with identical merkle tree root and identical hash (the reconstruction in
fact yields the very same Block). -/
theorem reconstruction_equivalence (digestFn : List Nat → Hash32) (ph : Hash32)
    (n ts : Nat) (txs : List Transaction) (ma : Option Hash32) (d : Nat) :
    (Block.deserialize digestFn
        (Block.persist (Block.new digestFn ph n ts txs ma d))).merkle_tree.rootNodeHash
      = (Block.new digestFn ph n ts txs ma d).merkle_tree.rootNodeHash ∧
    (Block.deserialize digestFn
        (Block.persist (Block.new digestFn ph n ts txs ma d))).hash
      = (Block.new digestFn ph n ts txs ma d).hash := by
  have hb : Block.deserialize digestFn (Block.persist (Block.new digestFn ph n ts txs ma d))
      = Block.new digestFn ph n ts txs ma d := rfl
  rw [hb]
  exact ⟨rfl, rfl⟩

/-- Counterexample for claim C6: the Block materialized by deserialization
does not carry the persisted optional hash verbatim: a persisted form with
hash = none but a miner address present deserializes to a Block whose hash
is recomputed and present. -/
theorem deserialize_hash_not_verbatim_counterexample :
    pNoHash.hash = none ∧
    (Block.deserialize digestFnEx pNoHash).hash ≠ pNoHash.hash := by
  decide

/-- Claim C6 (amended): deserialization reads the persisted optional hash
but discards it — the persisted hash has no effect on the resulting Block —
and the materialized Block carries the hash recomputed from the
reconstructed header: some digest when the miner address is present, none
otherwise. -/
theorem deserialize_hash_recomputed (digestFn : List Nat → Hash32)
    (p : PersistedBlock) (h0 : Option Hash32) :
    Block.deserialize digestFn { p with hash := h0 } = Block.deserialize digestFn p ∧
    (Block.deserialize digestFn p).hash
      = ((Block.deserialize digestFn p).header.hash digestFn).toOption :=
  ⟨rfl, block_new_hash digestFn p.header.previous_hash p.header.nonce
    p.header.timestamp p.transactions p.header.miner_address p.header.depth⟩

/-- Claim C7: Block::new never fails: with the miner address absent the
resulting Block carries hash = none rather than propagating the hashing
failure, and with it present the Block carries hash = some digest of the
built header. -/
theorem construction_never_fails (digestFn : List Nat → Hash32) (ph : Hash32)
    (n ts : Nat) (txs : List Transaction) (d : Nat) :
    (Block.new digestFn ph n ts txs none d).hash = none ∧
    ∀ m : Hash32, (Block.new digestFn ph n ts txs (some m) d).hash
      = some (digestFn (canonicalByteSequence
          (Block.new digestFn ph n ts txs (some m) d).header m)) := by
  exact ⟨rfl, fun m => rfl⟩

/-- Claim C8: for every constructed Block, every transaction in its
transaction sequence validates; every transaction not in the sequence does
not validate; and validate_transaction returns false both when no inclusion
proof exists and when proof verification against header.merkle_root
fails. -/
theorem validate_transaction_spec (digestFn : List Nat → Hash32) (ph : Hash32)
    (n ts : Nat) (txs : List Transaction) (ma : Option Hash32) (d : Nat) :
    (∀ t ∈ txs,
      (Block.new digestFn ph n ts txs ma d).validate_transaction digestFn t = true) ∧
    (∀ t₀, t₀ ∉ txs →
      (Block.new digestFn ph n ts txs ma d).validate_transaction digestFn t₀ = false) ∧
    (∀ b : Block, ∀ t, b.get_proof_for_transaction t = none →
      b.validate_transaction digestFn t = false) ∧
    (∀ b : Block, ∀ t proof, b.get_proof_for_transaction t = some proof →
      verify_proof_of_inclusion digestFn (txBytes t) proof b.header.merkle_root = false →
      b.validate_transaction digestFn t = false) := by
  have hleaves : (Block.new digestFn ph n ts txs ma d).merkle_tree.leaves
      = txs.map txBytes := rfl
  have hroot : (Block.new digestFn ph n ts txs ma d).header.merkle_root
      = merkleRootHash digestFn (txs.map txBytes) := by
    rw [block_new_header]
    rfl
  refine ⟨?_, ?_, ?_, ?_⟩
  · intro t ht
    have hmem : txBytes t ∈ (Block.new digestFn ph n ts txs ma d).merkle_tree.leaves := by
      rw [hleaves]
      exact List.mem_map_of_mem _ ht
    simp only [Block.validate_transaction, Block.get_proof_for_transaction,
      generate_proof_of_inclusion, if_pos hmem]
    simp [verify_proof_of_inclusion, hmem, hleaves, hroot]
    exact ⟨t, ht, rfl⟩
  · intro t₀ ht₀
    have hmem : txBytes t₀ ∉ (Block.new digestFn ph n ts txs ma d).merkle_tree.leaves := by
      rw [hleaves]
      intro hc
      rcases List.mem_map.mp hc with ⟨a, ha, hab⟩
      have hab₂ : a = t₀ := by simpa [txBytes] using hab
      exact ht₀ (hab₂ ▸ ha)
    simp only [Block.validate_transaction, Block.get_proof_for_transaction,
      generate_proof_of_inclusion, if_neg hmem]
  · intro b t hnone
    simp [Block.validate_transaction, hnone]
  · intro b t proof hsome hver
    simp [Block.validate_transaction, hsome, hver]

/-- Witness for claim C8 at a concrete two-transaction block: a member
transaction validates, a non-member does not, and a block whose proof
request comes back empty yields false. -/
theorem validate_transaction_spec_witness :
    blockEx.validate_transaction digestFnEx txA = true ∧
    blockEx.validate_transaction digestFnEx txC = false ∧
    blockEx.validate_transaction digestFnEx txC = false :=
  ⟨(validate_transaction_spec digestFnEx zeros32 0 100 [txA, txB] (some minerEx) 0).1
      txA (by decide),
   (validate_transaction_spec digestFnEx zeros32 0 100 [txA, txB] (some minerEx) 0).2.1
      txC (by decide),
   (validate_transaction_spec digestFnEx zeros32 0 100 [txA, txB] (some minerEx) 0).2.2.1
      blockEx txC (by decide)⟩

/-- Claim C9: converting a Block to its 32-byte hash unwraps the optional
hash unguarded: for every Block with hash = none the conversion hits the
error branch rather than returning a digest, and such unmined Blocks are
reachable, since Block::new without a miner address yields hash = none. -/
theorem into_hash_unguarded (digestFn : List Nat → Hash32) (ph : Hash32)
    (n ts : Nat) (txs : List Transaction) (d : Nat) (b : Block)
    (hb : b.hash = none) :
    b.intoHash = Except.error ConvError.NotFinalized ∧
    (Block.new digestFn ph n ts txs none d).hash = none := by
  constructor
  · simp [Block.intoHash, hb]
  · rfl

/-- Witness for claim C9 at the concrete unmined block. -/
theorem into_hash_unguarded_witness :
    blockNoMiner.intoHash = Except.error ConvError.NotFinalized ∧
    (Block.new digestFnEx zeros32 0 100 [txA, txB] none 0).hash = none :=
  into_hash_unguarded digestFnEx zeros32 0 100 [txA, txB] 0 blockNoMiner (by decide)

/-- Claim C10: tree construction succeeds for every transaction sequence,
including the empty one: generate_tree returns a tree whose root index is
set and in range, so the unwraps in Block::new never fail, and the
resulting header.merkle_root is the well defined root of the tree over the
transactions — for zero transactions, the empty-tree root. -/
theorem tree_unwraps_succeed (digestFn : List Nat → Hash32) (txs : List Transaction) :
    (∃ t, generate_tree digestFn txs = some t ∧
      ∃ i, t.root = some i ∧ i < t.nodes.length) ∧
    (∀ ph : Hash32, ∀ n ts : Nat, ∀ ma : Option Hash32, ∀ d : Nat,
      (Block.new digestFn ph n ts txs ma d).header.merkle_root
        = merkleRootHash digestFn (txs.map txBytes)) ∧
    (∀ ph : Hash32, ∀ n ts : Nat, ∀ ma : Option Hash32, ∀ d : Nat,
      (Block.new digestFn ph n ts ([] : List Transaction) ma d).header.merkle_root
        = digestFn []) := by
  refine ⟨⟨(generate_tree digestFn txs).getD default, rfl,
      (txs.map txBytes).length, rfl, ?_⟩, ?_, ?_⟩
  · simp [generate_tree]
  · intro ph n ts ma d
    rw [block_new_header]
    rfl
  · intro ph n ts ma d
    rw [block_new_header]
    rfl

end BlockCore
